import Mathlib

/-!
OpenDigitizer UI: the task queue, the dashboard lifecycle and the style of `App`.

A shallow embedding of `src/ui/app.cpp` (the member functions of `DigitizerUi::App`)
and of `main_loop` from `src/ui/main.cpp`.

The state of an `App` is a record.  Calls into collaborators whose code is not part of
these two files (ImGui, SDL, `Dashboard`, `FlowgraphItem`, `OpenDashboardPage`) are
recorded, in program order, in the `trace` component, so that the order of effects can be
stated.  A deferred callback (`fu2::unique_function<void()>`) is a number; what it does when
called is given by a table from numbers to lists of `App` operations.
-/

namespace DigitizerUi

/-- Modelled from the spec: the enumeration `Style` of app.h (not among the sources), the
two values `setStyle` switches over. -/
inductive Style where
  | Light
  | Dark
  deriving DecidableEq, Repr

/-- Modelled from the spec: `DashboardDescription` (dashboard.h is not among the sources);
only its identity matters here. -/
structure DashboardDescription where
  name : String
  deriving DecidableEq, Repr

/-- Modelled from the spec: `DashboardSource` (dashboard.h is not among the sources); the
lambda of `loadDashboard(std::string_view)` reads its member `path`. -/
structure DashboardSource where
  path : String
  deriving DecidableEq, Repr

/-- Modelled from the spec: the class `Dashboard` (dashboard.h is not among the sources).
The constructor stores the description pointer it is given (`none` is the null pointer);
`load()` marks the object as loaded. -/
structure Dashboard where
  desc : Option DashboardDescription
  loaded : Bool
  deriving DecidableEq, Repr

/-- Modelled from the spec: the flowgraph-item view `FlowgraphItem` (flowgraphitem.h is not
among the sources): a style flag set by `setStyle`, and view state that `clear()` drops. -/
structure FlowgraphItem where
  style : Style
  view : List Nat
  deriving DecidableEq, Repr

/-- The deferred callbacks are told apart by a number. -/
abbrev Callback := Nat

/-- An `SDL_Event` as far as `main_loop` inspects it: `SDL_QUIT`, an `SDL_WINDOWEVENT`
whose `window.event` is `SDL_WINDOWEVENT_CLOSE` (with its `window.windowID`), or anything
else. -/
inductive SDL_Event where
  | quit
  | windowClose (windowID : Nat)
  | other
  deriving DecidableEq, Repr

/-- Calls made into code outside `app.cpp` and `main.cpp`, in the order they happen. -/
inductive Effect where
  | ImGui_StyleColorsDark
  | ImGui_StyleColorsLight
  | fgItem_setStyle (style : Style)
  | fgItem_clear
  | Dashboard_construct (desc : Option DashboardDescription)
  | Dashboard_destroy (d : Dashboard)
  | Dashboard_load
  | openDashboardPage_addSource (path : String)
  | call (cb : Callback)
  | ImGui_ProcessEvent (e : SDL_Event)
  | ImGui_NewFrame
  | draw_header_bar
  | dashboardPage_draw
  | fgItem_draw
  | openDashboardPage_draw
  | ImGui_Render
  deriving DecidableEq, Repr

/-- The members of `App` that `app.cpp` and `main_loop` read or write.  `m_callbacks` is the
two-element array of vectors: `.1` is `m_callbacks[0]`, `.2` is `m_callbacks[1]`.
`windowID` is `SDL_GetWindowID(sdlState->window)`. -/
structure App where
  dashboard : Option Dashboard
  fgItem : FlowgraphItem
  m_style : Style
  m_callbacks : List Callback × List Callback
  running : Bool
  windowID : Nat
  trace : List Effect
  deriving DecidableEq, Repr

/-- Appends one call to the trace. -/
def App.emit (s : App) (e : Effect) : App :=
  { s with trace := s.trace ++ [e] }

/-- The callbacks invoked in a trace, in order. -/
def calls : List Effect → List Callback
  | [] => []
  | Effect.call cb :: rest => cb :: calls rest
  | _ :: rest => calls rest

/-- The call `fgItem.clear()`. -/
def FlowgraphItem.clear (f : FlowgraphItem) : FlowgraphItem :=
  { f with view := [] }

/-- The call `fgItem.setStyle(style)`. -/
def FlowgraphItem.setStyle (f : FlowgraphItem) (style : Style) : FlowgraphItem :=
  { f with style := style }

/-- Assigning to the `std::unique_ptr<Dashboard>` member: the object held before, if there
is one, is destroyed. -/
def App.resetDashboard (s : App) (d : Option Dashboard) : App :=
  match s.dashboard with
  | some old => { s with dashboard := d, trace := s.trace ++ [Effect.Dashboard_destroy old] }
  | none => { s with dashboard := d }

/-- Modelled from the spec: `Dashboard::load()` (dashboard.h is not among the sources),
the step after construction that makes the dashboard drawable. -/
def Dashboard.load (d : Dashboard) : Dashboard :=
  { d with loaded := true }

/-- The member `App::loadDashboard(const std::shared_ptr<DashboardDescription> &desc)`:
`fgItem.clear(); dashboard = std::make_unique<Dashboard>(desc); dashboard->load();`. -/
def loadDashboard (desc : Option DashboardDescription) (s : App) : App :=
  let s1 := { s with fgItem := s.fgItem.clear, trace := s.trace ++ [Effect.fgItem_clear] }
  let s2 := App.resetDashboard (s1.emit (Effect.Dashboard_construct desc))
    (some { desc := desc, loaded := false })
  { s2 with dashboard := s2.dashboard.map Dashboard.load,
            trace := s2.trace ++ [Effect.Dashboard_load] }

/-- Modelled from the spec: `DashboardDescription::createEmpty(name)` (dashboard.h is not
among the sources) gives a non-null description carrying the name. -/
def DashboardDescription.createEmpty (name : String) : Option DashboardDescription :=
  some { name := name }

/-- The member `App::loadEmptyDashboard()`:
`loadDashboard(DashboardDescription::createEmpty("New dashboard"));`. -/
def loadEmptyDashboard (s : App) : App :=
  loadDashboard (DashboardDescription.createEmpty "New dashboard") s

/-- The member `App::closeDashboard()`: `dashboard = {};`. -/
def closeDashboard (s : App) : App :=
  App.resetDashboard s none

/-- The member `App::setStyle(Style style)`: the switch over the two styles, then
`m_style = style; fgItem.setStyle(style);`. -/
def setStyle (style : Style) (s : App) : App :=
  let s1 := match style with
    | Style.Dark => s.emit Effect.ImGui_StyleColorsDark
    | Style.Light => s.emit Effect.ImGui_StyleColorsLight
  { s1 with m_style := style,
            fgItem := s1.fgItem.setStyle style,
            trace := s1.trace ++ [Effect.fgItem_setStyle style] }

/-- The constructor `App::App()`: the members as initialised before the body runs, then
`setStyle(Style::Light)`. -/
def App.construct (members : App) : App :=
  setStyle Style.Light members

/-- The member `App::schedule(cb)`: `m_callbacks[0].push_back(std::move(cb))` under the mutex. -/
def schedule (cb : Callback) (s : App) : App :=
  { s with m_callbacks := (s.m_callbacks.1 ++ [cb], s.m_callbacks.2) }

/-- What the body of a callback may do: the operations of `App` defined in `app.cpp`, and
raising an error (`throw`).  Calling `fireCallbacks` from inside a callback is left out: it
would swap the vector the enclosing range-for is iterating, and `std::vector::swap`
invalidates the end iterator the loop has cached. -/
inductive Action where
  | schedule (cb : Callback)
  | loadDashboard (desc : Option DashboardDescription)
  | loadEmptyDashboard
  | closeDashboard
  | setStyle (style : Style)
  | raise
  deriving DecidableEq, Repr

/-- The code behind each callback: the operations its body performs, in order. -/
abbrev Program := Callback → List Action

/-- How a call ends: it returns, or an error leaves it; either way with the state reached. -/
inductive Outcome where
  | returned (s : App)
  | raised (s : App)
  deriving DecidableEq, Repr

/-- The state an outcome carries. -/
def Outcome.state : Outcome → App
  | Outcome.returned s => s
  | Outcome.raised s => s

/-- One operation of a callback body. -/
def runAction (a : Action) (s : App) : Outcome :=
  match a with
  | Action.schedule cb => Outcome.returned (schedule cb s)
  | Action.loadDashboard desc => Outcome.returned (loadDashboard desc s)
  | Action.loadEmptyDashboard => Outcome.returned (loadEmptyDashboard s)
  | Action.closeDashboard => Outcome.returned (closeDashboard s)
  | Action.setStyle style => Outcome.returned (setStyle style s)
  | Action.raise => Outcome.raised s

/-- A callback body: its operations one after the other, until one raises. -/
def runBody : List Action → App → Outcome
  | [], s => Outcome.returned s
  | a :: rest, s =>
    match runAction a s with
    | Outcome.returned s1 => runBody rest s1
    | Outcome.raised s1 => Outcome.raised s1

/-- The call `cb()`. -/
def invoke (prog : Program) (cb : Callback) (s : App) : Outcome :=
  runBody (prog cb) (s.emit (Effect.call cb))

/-- The loop `for (auto &cb : m_callbacks[1]) { cb(); }` over the elements the vector has
when the loop starts; an error raised by a callback leaves the loop. -/
def runBatch (prog : Program) : List Callback → App → Outcome
  | [], s => Outcome.returned s
  | cb :: rest, s =>
    match invoke prog cb s with
    | Outcome.returned s1 => runBatch prog rest s1
    | Outcome.raised s1 => Outcome.raised s1

/-- The member `App::fireCallbacks()`: swap the two vectors under the mutex, call every element of
`m_callbacks[1]`, then `m_callbacks[1].clear()`.  No handler surrounds the loop, so an
error raised by a callback leaves `fireCallbacks` before the `clear()`. -/
def fireCallbacks (prog : Program) (s : App) : Outcome :=
  let s1 := { s with m_callbacks := (s.m_callbacks.2, s.m_callbacks.1) }
  match runBatch prog s1.m_callbacks.2 s1 with
  | Outcome.returned s2 => Outcome.returned { s2 with m_callbacks := (s2.m_callbacks.1, []) }
  | Outcome.raised s2 => Outcome.raised s2

/-- A run of `schedule` calls, one per callback of the list, in the order of the list. -/
def scheduleAll (cbs : List Callback) (s : App) : App :=
  cbs.foldl (fun acc cb => schedule cb acc) s

/-- The callbacks a body passes to `schedule`, in order. -/
def scheduledBy : List Action → List Callback
  | [] => []
  | Action.schedule cb :: rest => cb :: scheduledBy rest
  | _ :: rest => scheduledBy rest

/-- The callbacks scheduled by the bodies of a batch, in the order the batch runs them. -/
def scheduledByBatch (prog : Program) : List Callback → List Callback
  | [] => []
  | cb :: rest => scheduledBy (prog cb) ++ scheduledByBatch prog rest

/-- Modelled from the spec: what `loadDashboard(std::string_view)` uses of
`std::filesystem::path` and of `DashboardSource::get` (dashboard.h is not among the
sources). -/
structure Lookup where
  parent_path : String → String
  filename : String → String
  DashboardSource_get : String → DashboardSource

/-- The lambda `[this, source](std::shared_ptr<DashboardDescription> &&desc)` handed to
`DashboardDescription::load`: `if (desc) { loadDashboard(desc);
openDashboardPage.addSource(source->path); }`. -/
def loadDashboardCompletion (source : DashboardSource) (desc : Option DashboardDescription)
    (s : App) : App :=
  match desc with
  | some d => (loadDashboard (some d) s).emit (Effect.openDashboardPage_addSource source.path)
  | none => s

/-- The request `App::loadDashboard(std::string_view url)` hands to
`DashboardDescription::load`: the source, the file name, and the completion callback. -/
structure DescriptionRequest where
  source : DashboardSource
  filename : String
  completion : Option DashboardDescription → App → App

/-- The member `App::loadDashboard(std::string_view url)`: the source comes from
`DashboardSource::get(path.parent_path().native())`, the name is `path.filename()`. -/
def loadDashboardFrom (lk : Lookup) (url : String) : DescriptionRequest :=
  let source := lk.DashboardSource_get (lk.parent_path url)
  { source := source,
    filename := lk.filename url,
    completion := loadDashboardCompletion source }

/-- The drawing routines `main_loop` calls whose code is not among the sources; each may
change the application it is handed. -/
structure Pages where
  dashboardPage_draw : App → App
  fgItem_draw : App → App
  openDashboardPage_draw : App → App

/-- What one iteration of the run loop gets from outside: the events `SDL_PollEvent`
delivers, and what `ImGui::BeginTabItem` answers for the three tabs. -/
structure Frame where
  events : List SDL_Event
  viewTab : Bool
  flowgraphTab : Bool
  fileTab : Bool

/-- The body of the `while (SDL_PollEvent(&event))` loop of `main_loop`. -/
def pollEvent (s : App) (e : SDL_Event) : App :=
  let s1 := s.emit (Effect.ImGui_ProcessEvent e)
  let s2 := if e = SDL_Event.quit then { s1 with running := false } else s1
  match e with
  | SDL_Event.windowClose w => if w = s2.windowID then { s2 with running := false } else s2
  | _ => s2

/-- The function `main_loop` of main.cpp: the event loop, the start of the frame, the header,
the three tabs, and the rendering.  `dashboardLoaded` is read once, before the tabs. -/
def main_loop (pages : Pages) (f : Frame) (s : App) : App :=
  let s1 := f.events.foldl pollEvent s
  let s2 := (s1.emit Effect.ImGui_NewFrame).emit Effect.draw_header_bar
  let dashboardLoaded := s2.dashboard.isSome
  let s3 := if f.viewTab && dashboardLoaded
    then pages.dashboardPage_draw (s2.emit Effect.dashboardPage_draw) else s2
  let s4 := if f.flowgraphTab && dashboardLoaded
    then pages.fgItem_draw (s3.emit Effect.fgItem_draw) else s3
  let s5 := if f.fileTab
    then pages.openDashboardPage_draw (s4.emit Effect.openDashboardPage_draw) else s4
  s5.emit Effect.ImGui_Render

/-- The members of an `App` before the constructor body runs: no dashboard, both callback
vectors empty, `running` set. -/
def App.members : App :=
  { dashboard := none,
    fgItem := { style := Style.Light, view := [] },
    m_style := Style.Light,
    m_callbacks := ([], []),
    running := true,
    windowID := 1,
    trace := [] }

/-- A callback table in which callback 2 raises and every other callback does nothing. -/
def secondRaises : Program := fun cb => if cb = 2 then [Action.raise] else []

/-- A callback table in which callback 1 schedules callbacks 5 and 6, callback 2 sets the
dark style, callback 3 loads an empty dashboard, and every other callback does nothing. -/
def firstSchedules : Program := fun cb =>
  if cb = 1 then [Action.schedule 5, Action.schedule 6]
  else if cb = 2 then [Action.setStyle Style.Dark]
  else if cb = 3 then [Action.loadEmptyDashboard]
  else []

/-- Drawing routines that leave the application as it is. -/
def stillPages : Pages :=
  { dashboardPage_draw := fun a => a,
    fgItem_draw := fun a => a,
    openDashboardPage_draw := fun a => a }

/-- A drawing routine leaves the task queue alone: it changes neither of the two callback
vectors and calls no callback. -/
def KeepsQueue (draw : App → App) : Prop :=
  ∀ a : App, (draw a).m_callbacks = a.m_callbacks ∧ calls (draw a).trace = calls a.trace

/-! Lemmas on the trace and the callback vectors -/

theorem calls_append (l1 l2 : List Effect) : calls (l1 ++ l2) = calls l1 ++ calls l2 := by
  induction l1 with
  | nil => rfl
  | cons e rest ih => cases e <;> simp [calls, ih]

theorem calls_emit_call (s : App) (cb : Callback) :
    calls (s.emit (Effect.call cb)).trace = calls s.trace ++ [cb] := by
  simp [App.emit, calls_append, calls]

theorem calls_emit_other (s : App) (e : Effect) (h : ∀ cb, e ≠ Effect.call cb) :
    calls (s.emit e).trace = calls s.trace := by
  cases e <;> simp_all [App.emit, calls_append, calls]

theorem resetDashboard_queue (s : App) (d : Option Dashboard) :
    (App.resetDashboard s d).m_callbacks = s.m_callbacks ∧
      calls (App.resetDashboard s d).trace = calls s.trace := by
  unfold App.resetDashboard
  cases s.dashboard <;> simp [calls_append, calls]

theorem loadDashboard_queue (desc : Option DashboardDescription) (s : App) :
    (loadDashboard desc s).m_callbacks = s.m_callbacks ∧
      calls (loadDashboard desc s).trace = calls s.trace := by
  unfold loadDashboard
  simp only [calls_append, (resetDashboard_queue _ _).1, (resetDashboard_queue _ _).2]
  simp [App.emit, calls_append, calls]

theorem setStyle_queue (style : Style) (s : App) :
    (setStyle style s).m_callbacks = s.m_callbacks ∧
      calls (setStyle style s).trace = calls s.trace := by
  cases style <;> simp [setStyle, App.emit, calls_append, calls]

/-- An operation other than `raise` returns; it appends what it schedules to
`m_callbacks[0]`, leaves `m_callbacks[1]` alone and calls no callback. -/
theorem runAction_returns (a : Action) (s : App) (h : a ≠ Action.raise) :
    ∃ s1, runAction a s = Outcome.returned s1 ∧
      s1.m_callbacks = (s.m_callbacks.1 ++ scheduledBy [a], s.m_callbacks.2) ∧
      calls s1.trace = calls s.trace := by
  cases a with
  | schedule cb => exact ⟨_, rfl, by simp [schedule, scheduledBy], rfl⟩
  | loadDashboard desc =>
    exact ⟨_, rfl, by simp [(loadDashboard_queue desc s).1, scheduledBy],
      (loadDashboard_queue desc s).2⟩
  | loadEmptyDashboard =>
    exact ⟨_, rfl, by simp [loadEmptyDashboard, (loadDashboard_queue _ s).1, scheduledBy],
      (loadDashboard_queue _ s).2⟩
  | closeDashboard =>
    exact ⟨_, rfl, by simp [closeDashboard, (resetDashboard_queue s none).1, scheduledBy],
      (resetDashboard_queue s none).2⟩
  | setStyle style =>
    exact ⟨_, rfl, by simp [(setStyle_queue style s).1, scheduledBy],
      (setStyle_queue style s).2⟩
  | raise => exact absurd rfl h

theorem scheduledBy_cons (a : Action) (rest : List Action) :
    scheduledBy (a :: rest) = scheduledBy [a] ++ scheduledBy rest := by
  cases a <;> simp [scheduledBy]

/-- A body without `raise` returns, having appended what it schedules to `m_callbacks[0]`. -/
theorem runBody_returns (body : List Action) (s : App) (h : Action.raise ∉ body) :
    ∃ s1, runBody body s = Outcome.returned s1 ∧
      s1.m_callbacks = (s.m_callbacks.1 ++ scheduledBy body, s.m_callbacks.2) ∧
      calls s1.trace = calls s.trace := by
  induction body generalizing s with
  | nil => exact ⟨s, rfl, by simp [scheduledBy], rfl⟩
  | cons a rest ih =>
    have ha : a ≠ Action.raise := fun e => h (by simp [e])
    have hrest : Action.raise ∉ rest := fun e => h (by simp [e])
    obtain ⟨s1, h1, hq1, hc1⟩ := runAction_returns a s ha
    obtain ⟨s2, h2, hq2, hc2⟩ := ih s1 hrest
    refine ⟨s2, by simp [runBody, h1, h2], ?_, by rw [hc2, hc1]⟩
    rw [hq2, hq1, scheduledBy_cons a rest]
    simp

/-- A body with a `raise` in it is left by the error; it calls no callback. -/
theorem runBody_raises (body : List Action) (s : App) (h : Action.raise ∈ body) :
    ∃ s1, runBody body s = Outcome.raised s1 ∧ calls s1.trace = calls s.trace := by
  induction body generalizing s with
  | nil => simp at h
  | cons a rest ih =>
    by_cases ha : a = Action.raise
    · subst ha
      exact ⟨s, rfl, rfl⟩
    · have hrest : Action.raise ∈ rest := by
        rcases List.mem_cons.mp h with e | e
        · exact absurd e.symm ha
        · exact e
      obtain ⟨s1, h1, _, hc1⟩ := runAction_returns a s ha
      obtain ⟨s2, h2, hc2⟩ := ih s1 hrest
      exact ⟨s2, by simp [runBody, h1, h2], by rw [hc2, hc1]⟩

/-- A batch none of whose callbacks raises runs to its end: every callback of it is called
once, in order; what the bodies schedule goes to `m_callbacks[0]`, and `m_callbacks[1]`
stays as it was. -/
theorem runBatch_returns (prog : Program) (batch : List Callback) (s : App)
    (h : ∀ cb ∈ batch, Action.raise ∉ prog cb) :
    ∃ s1, runBatch prog batch s = Outcome.returned s1 ∧
      s1.m_callbacks = (s.m_callbacks.1 ++ scheduledByBatch prog batch, s.m_callbacks.2) ∧
      calls s1.trace = calls s.trace ++ batch := by
  induction batch generalizing s with
  | nil => exact ⟨s, rfl, by simp [scheduledByBatch], by simp⟩
  | cons cb rest ih =>
    obtain ⟨s1, h1, hq1, hc1⟩ :=
      runBody_returns (prog cb) (s.emit (Effect.call cb)) (h cb (by simp))
    obtain ⟨s2, h2, hq2, hc2⟩ := ih s1 (fun c hc => h c (by simp [hc]))
    refine ⟨s2, by simp [runBatch, invoke, h1, h2], ?_, ?_⟩
    · rw [hq2, hq1]
      simp [App.emit, scheduledByBatch]
    · rw [hc2, hc1, calls_emit_call]
      simp

/-- A batch whose first raising callback is `k` is left by the error during `k`: the
callbacks before `k` and `k` itself are called, those after `k` are not. -/
theorem runBatch_raises (prog : Program) (pre : List Callback) (k : Callback)
    (post : List Callback) (s : App)
    (hpre : ∀ cb ∈ pre, Action.raise ∉ prog cb) (hk : Action.raise ∈ prog k) :
    ∃ s1, runBatch prog (pre ++ k :: post) s = Outcome.raised s1 ∧
      calls s1.trace = calls s.trace ++ pre ++ [k] := by
  induction pre generalizing s with
  | nil =>
    obtain ⟨s2, h2, hc2⟩ := runBody_raises (prog k) (s.emit (Effect.call k)) hk
    exact ⟨s2, by simp [runBatch, invoke, h2], by rw [hc2, calls_emit_call]; simp⟩
  | cons cb rest ih =>
    obtain ⟨t, ht, _, hct⟩ :=
      runBody_returns (prog cb) (s.emit (Effect.call cb)) (hpre cb (by simp))
    have hrest : ∀ c ∈ rest, Action.raise ∉ prog c := fun c hc => hpre c (by simp [hc])
    obtain ⟨s2, h2, hc2⟩ := ih t hrest
    refine ⟨s2, by simp [runBatch, invoke, ht, h2], ?_⟩
    rw [hc2, hct, calls_emit_call]
    simp

theorem scheduleAll_queue (cbs : List Callback) (s : App) :
    scheduleAll cbs s = { s with m_callbacks := (s.m_callbacks.1 ++ cbs, s.m_callbacks.2) } := by
  induction cbs generalizing s with
  | nil => simp [scheduleAll]
  | cons cb rest ih =>
    have := ih (schedule cb s)
    simp only [scheduleAll, List.foldl_cons] at this ⊢
    rw [this]
    simp [schedule]

theorem pollEvent_queue (s : App) (e : SDL_Event) :
    (pollEvent s e).m_callbacks = s.m_callbacks ∧ calls (pollEvent s e).trace = calls s.trace := by
  cases e with
  | quit => simp [pollEvent, App.emit, calls_append, calls]
  | windowClose w =>
    by_cases hw : w = s.windowID <;> simp [pollEvent, App.emit, calls_append, calls, hw]
  | other => simp [pollEvent, App.emit, calls_append, calls]

theorem pollEvents_queue (events : List SDL_Event) (s : App) :
    (events.foldl pollEvent s).m_callbacks = s.m_callbacks ∧
      calls (events.foldl pollEvent s).trace = calls s.trace := by
  induction events generalizing s with
  | nil => exact ⟨rfl, rfl⟩
  | cons e rest ih =>
    simp only [List.foldl_cons]
    exact ⟨(ih _).1.trans (pollEvent_queue s e).1, (ih _).2.trans (pollEvent_queue s e).2⟩

theorem emit_queue (s : App) (e : Effect) (h : ∀ cb, e ≠ Effect.call cb) :
    (s.emit e).m_callbacks = s.m_callbacks ∧ calls (s.emit e).trace = calls s.trace :=
  ⟨rfl, calls_emit_other s e h⟩

/-! The task queue -/

/-- Claim C1, refuted as stated.  Callbacks 2 and 7 are passed to `schedule`, in that
order, on a fresh `App` (both vectors empty), and callback 2 raises.  The next
`fireCallbacks` is left by the error after calling 2 only: callback 7 is not called, so the
callbacks called are not the scheduled list, and `m_callbacks[1]` is not empty. -/
theorem fireCallbacks_runs_scheduled_counterexample :
    (App.construct App.members).m_callbacks = ([], []) ∧
    fireCallbacks secondRaises (scheduleAll [2, 7] (App.construct App.members))
      = Outcome.raised
          { App.construct App.members with
            m_callbacks := ([], [2, 7]),
            trace := (App.construct App.members).trace ++ [Effect.call 2] } ∧
    calls (fireCallbacks secondRaises
        (scheduleAll [2, 7] (App.construct App.members))).state.trace
      ≠ calls (App.construct App.members).trace ++ [2, 7] := by
  decide

/-- Claim C1, amended.  Callbacks `cbs` are passed to `schedule` in order, starting from empty
vectors, and none of them raises.  Then the next `fireCallbacks` returns, having called
exactly the callbacks `cbs`, each once, in that order; `m_callbacks[1]` is empty and
`m_callbacks[0]` holds what the bodies scheduled.  If no body schedules anything, both
vectors are empty and a second `fireCallbacks` returns the state unchanged: it calls
nothing. -/
theorem fireCallbacks_runs_scheduled_in_order (prog : Program) (s0 : App)
    (cbs : List Callback) (hq : s0.m_callbacks = ([], []))
    (hr : ∀ cb ∈ cbs, Action.raise ∉ prog cb) :
    ∃ s1, fireCallbacks prog (scheduleAll cbs s0) = Outcome.returned s1 ∧
      calls s1.trace = calls s0.trace ++ cbs ∧
      s1.m_callbacks = (scheduledByBatch prog cbs, []) ∧
      ((∀ cb ∈ cbs, scheduledBy (prog cb) = []) →
        s1.m_callbacks = ([], []) ∧ fireCallbacks prog s1 = Outcome.returned s1) := by
  obtain ⟨t, ht, hqt, hct⟩ := runBatch_returns prog cbs
    { s0 with m_callbacks := ([], cbs) } hr
  have hfire : fireCallbacks prog (scheduleAll cbs s0)
      = Outcome.returned { t with m_callbacks := (t.m_callbacks.1, []) } := by
    simp [fireCallbacks, scheduleAll_queue, hq, ht]
  have hpend : t.m_callbacks.1 = scheduledByBatch prog cbs := by simp [hqt]
  refine ⟨_, hfire, by simpa using hct, by simp [hpend], ?_⟩
  intro hnone
  have hempty : scheduledByBatch prog cbs = [] := by
    clear hfire hpend hqt hct ht hr
    induction cbs with
    | nil => rfl
    | cons cb rest ih =>
      simp [scheduledByBatch, hnone cb (by simp), ih (fun c hc => hnone c (by simp [hc]))]
  refine ⟨by simp [hpend, hempty], ?_⟩
  simp [fireCallbacks, hpend, hempty, runBatch]

/-- Instance of the amended C1: callbacks 2 and 3 of `firstSchedules` scheduled on a fresh
`App`. -/
theorem fireCallbacks_runs_scheduled_in_order_witness :
    ((App.construct App.members).m_callbacks = ([], []) ∧
      ∀ cb ∈ [2, 3], Action.raise ∉ firstSchedules cb) ∧
    ∃ s1, fireCallbacks firstSchedules (scheduleAll [2, 3] (App.construct App.members))
        = Outcome.returned s1 ∧
      calls s1.trace = calls (App.construct App.members).trace ++ [2, 3] ∧
      s1.m_callbacks = (scheduledByBatch firstSchedules [2, 3], []) ∧
      ((∀ cb ∈ [2, 3], scheduledBy (firstSchedules cb) = []) →
        s1.m_callbacks = ([], []) ∧ fireCallbacks firstSchedules s1 = Outcome.returned s1) :=
  ⟨⟨rfl, by decide⟩,
    fireCallbacks_runs_scheduled_in_order firstSchedules (App.construct App.members) [2, 3]
      rfl (by decide)⟩

/-- Claim C4, refuted as stated.  Callbacks 1, 2, 3 are pending and callback 2 raises.  The
drain is left by the error after calling 1 and 2: callback 3 is not called.  The batch stays
in `m_callbacks[1]`; the next drain returns without calling anything, and the one after it
calls 1 a second time and is again left at 2, so callback 3 is never called. -/
theorem fireCallbacks_raise_counterexample :
    fireCallbacks secondRaises (scheduleAll [1, 2, 3] (App.construct App.members))
      = Outcome.raised
          { App.construct App.members with
            m_callbacks := ([], [1, 2, 3]),
            trace := (App.construct App.members).trace ++ [Effect.call 1, Effect.call 2] } ∧
    calls (fireCallbacks secondRaises (fireCallbacks secondRaises
      (fireCallbacks secondRaises
        (scheduleAll [1, 2, 3] (App.construct App.members))).state).state).state.trace
      = [1, 2, 1, 2] := by
  decide

/-- Claim C4, amended.  The batch is `pre ++ k :: post`, no callback of `pre` raises and
`k` raises.  Then the error leaves `fireCallbacks`: in that call the callbacks of `pre`
and then `k` are called, once each and in order, and no callback of `post` is called. -/
theorem fireCallbacks_raise_leaves_drain (prog : Program) (s : App)
    (pre : List Callback) (k : Callback) (post : List Callback)
    (hq : s.m_callbacks.1 = pre ++ k :: post)
    (hpre : ∀ cb ∈ pre, Action.raise ∉ prog cb) (hk : Action.raise ∈ prog k) :
    ∃ s1, fireCallbacks prog s = Outcome.raised s1 ∧
      calls s1.trace = calls s.trace ++ pre ++ [k] := by
  obtain ⟨t, ht, hct⟩ := runBatch_raises prog pre k post
    { s with m_callbacks := (s.m_callbacks.2, pre ++ k :: post) } hpre hk
  exact ⟨t, by simp [fireCallbacks, hq, ht], by simpa using hct⟩

/-- Instance of the amended C4: callbacks 1, 2, 3 pending, callback 2 raises. -/
theorem fireCallbacks_raise_leaves_drain_witness :
    ((scheduleAll [1, 2, 3] (App.construct App.members)).m_callbacks.1 = [1] ++ 2 :: [3] ∧
      (∀ cb ∈ [1], Action.raise ∉ secondRaises cb) ∧ Action.raise ∈ secondRaises 2) ∧
    ∃ s1, fireCallbacks secondRaises (scheduleAll [1, 2, 3] (App.construct App.members))
        = Outcome.raised s1 ∧
      calls s1.trace
        = calls (scheduleAll [1, 2, 3] (App.construct App.members)).trace ++ [1] ++ [2] :=
  ⟨⟨rfl, by decide, by decide⟩,
    fireCallbacks_raise_leaves_drain secondRaises
      (scheduleAll [1, 2, 3] (App.construct App.members)) [1] 2 [3] rfl (by decide)
      (by decide)⟩

/-! The run loop -/

/-- Claim C5, refuted as stated.  On a fresh `App` with an empty dashboard loaded, callback
7 is scheduled; then one iteration of `main_loop` runs, with one event and all three tabs
open, so that every page is drawn.  When it returns, callback 7 has not been called and
is still pending in `m_callbacks[0]`. -/
theorem main_loop_drain_counterexample :
    Effect.call 7 ∉
      (main_loop stillPages
        { events := [SDL_Event.other], viewTab := true, flowgraphTab := true, fileTab := true }
        (schedule 7 (loadEmptyDashboard (App.construct App.members)))).trace ∧
    (main_loop stillPages
        { events := [SDL_Event.other], viewTab := true, flowgraphTab := true, fileTab := true }
        (schedule 7 (loadEmptyDashboard (App.construct App.members)))).m_callbacks
      = ([7], []) := by
  decide

/-- Claim C5, amended.  One iteration of `main_loop` polls the events and draws the frame
without calling `fireCallbacks`: if the three page-drawing routines leave the task queue
alone, then both callback vectors are the same when `main_loop` returns as when it began
and no callback has been called, so what was pending stays pending. -/
theorem main_loop_keeps_queue (pages : Pages) (f : Frame) (s : App)
    (h1 : KeepsQueue pages.dashboardPage_draw) (h2 : KeepsQueue pages.fgItem_draw)
    (h3 : KeepsQueue pages.openDashboardPage_draw) :
    (main_loop pages f s).m_callbacks = s.m_callbacks ∧
      calls (main_loop pages f s).trace = calls s.trace := by
  have step : ∀ (draw : App → App) (e : Effect) (c : Bool) (a : App),
      KeepsQueue draw → (∀ cb, e ≠ Effect.call cb) →
      (if c then draw (a.emit e) else a).m_callbacks = a.m_callbacks ∧
        calls (if c then draw (a.emit e) else a).trace = calls a.trace := by
    intro draw e c a hd he
    cases c
    · exact ⟨rfl, rfl⟩
    · exact ⟨(hd _).1.trans (emit_queue a e he).1, (hd _).2.trans (emit_queue a e he).2⟩
  have e1 := pollEvents_queue f.events s
  have e2 := emit_queue (f.events.foldl pollEvent s) Effect.ImGui_NewFrame (by simp)
  have e3 := emit_queue ((f.events.foldl pollEvent s).emit Effect.ImGui_NewFrame)
    Effect.draw_header_bar (by simp)
  unfold main_loop
  simp only []
  refine ⟨?_, ?_⟩
  · rw [(emit_queue _ Effect.ImGui_Render (by simp)).1,
      (step _ Effect.openDashboardPage_draw _ _ h3 (by simp)).1,
      (step _ Effect.fgItem_draw _ _ h2 (by simp)).1,
      (step _ Effect.dashboardPage_draw _ _ h1 (by simp)).1, e3.1, e2.1, e1.1]
  · rw [(emit_queue _ Effect.ImGui_Render (by simp)).2,
      (step _ Effect.openDashboardPage_draw _ _ h3 (by simp)).2,
      (step _ Effect.fgItem_draw _ _ h2 (by simp)).2,
      (step _ Effect.dashboardPage_draw _ _ h1 (by simp)).2, e3.2, e2.2, e1.2]

/-- Instance of the amended C5: callbacks 7 and 8 pending, a quit event, all tabs open. -/
theorem main_loop_keeps_queue_witness :
    (KeepsQueue stillPages.dashboardPage_draw ∧ KeepsQueue stillPages.fgItem_draw ∧
      KeepsQueue stillPages.openDashboardPage_draw) ∧
    (main_loop stillPages
        { events := [SDL_Event.quit], viewTab := true, flowgraphTab := true, fileTab := true }
        (scheduleAll [7, 8] (App.construct App.members))).m_callbacks
      = (scheduleAll [7, 8] (App.construct App.members)).m_callbacks ∧
    calls (main_loop stillPages
        { events := [SDL_Event.quit], viewTab := true, flowgraphTab := true, fileTab := true }
        (scheduleAll [7, 8] (App.construct App.members))).trace
      = calls (scheduleAll [7, 8] (App.construct App.members)).trace :=
  ⟨⟨fun _ => ⟨rfl, rfl⟩, fun _ => ⟨rfl, rfl⟩, fun _ => ⟨rfl, rfl⟩⟩,
    main_loop_keeps_queue stillPages
      { events := [SDL_Event.quit], viewTab := true, flowgraphTab := true, fileTab := true }
      (scheduleAll [7, 8] (App.construct App.members))
      (fun _ => ⟨rfl, rfl⟩) (fun _ => ⟨rfl, rfl⟩) (fun _ => ⟨rfl, rfl⟩)⟩

/-! The dashboard lifecycle -/

/-- Claim C7.  When the completion callback of `loadDashboard(url)` fires with a null
description, the application is left exactly as it was: same dashboard handle, the
flowgraph-item view not cleared, no `addSource` call, nothing added to the trace. -/
theorem loadDashboard_null_result_keeps_state (lk : Lookup) (url : String) (s : App) :
    (loadDashboardFrom lk url).completion none s = s ∧
    ((loadDashboardFrom lk url).completion none s).dashboard = s.dashboard ∧
    ((loadDashboardFrom lk url).completion none s).fgItem = s.fgItem ∧
    ((loadDashboardFrom lk url).completion none s).trace = s.trace :=
  ⟨rfl, rfl, rfl, rfl⟩

/-- Claim C8.  For a locator `url`, the source is the one `DashboardSource::get` gives for
the parent path and the description is requested under the file name.  When the
completion callback fires with a non-null description `d`, it performs `loadDashboard(d)`
and then, once, `openDashboardPage.addSource(source->path)`: afterwards the handle holds
the loaded dashboard built from `d`, and the trace has grown by the effects of
`loadDashboard(d)` followed by the single `addSource` call. -/
theorem loadDashboard_result_registers_source (lk : Lookup) (url : String)
    (d : DashboardDescription) (s : App) :
    (loadDashboardFrom lk url).source = lk.DashboardSource_get (lk.parent_path url) ∧
    (loadDashboardFrom lk url).filename = lk.filename url ∧
    ((loadDashboardFrom lk url).completion (some d) s).dashboard
      = some { desc := some d, loaded := true } ∧
    ((loadDashboardFrom lk url).completion (some d) s).trace
      = (loadDashboard (some d) s).trace ++
        [Effect.openDashboardPage_addSource (lk.DashboardSource_get (lk.parent_path url)).path] ∧
    (loadDashboard (some d) s).trace = s.trace ++
      (match s.dashboard with
       | none =>
         [Effect.fgItem_clear, Effect.Dashboard_construct (some d), Effect.Dashboard_load]
       | some old =>
         [Effect.fgItem_clear, Effect.Dashboard_construct (some d),
          Effect.Dashboard_destroy old, Effect.Dashboard_load]) := by
  refine ⟨rfl, rfl, ?_, rfl, ?_⟩
  · cases hd : s.dashboard <;>
      simp [loadDashboardFrom, loadDashboardCompletion, loadDashboard, App.resetDashboard,
        App.emit, Dashboard.load, hd]
  · cases hd : s.dashboard <;>
      simp [loadDashboard, App.resetDashboard, App.emit, Dashboard.load, hd]

/-- Claim C9.  After `closeDashboard` the handle is empty, whatever it held.  On an
application whose handle is already empty `closeDashboard` changes nothing, and closing
twice gives the same state as closing once.  The callback vectors, the style and the
flowgraph-item view are left as they were. -/
theorem closeDashboard_empties_and_is_idempotent (s : App) :
    (closeDashboard s).dashboard = none ∧
    closeDashboard { s with dashboard := none } = { s with dashboard := none } ∧
    closeDashboard (closeDashboard s) = closeDashboard s ∧
    (closeDashboard s).m_callbacks = s.m_callbacks ∧
    (closeDashboard s).m_style = s.m_style ∧
    (closeDashboard s).fgItem = s.fgItem := by
  cases hd : s.dashboard <;> simp [closeDashboard, App.resetDashboard, hd]

/-! The style -/

/-- Claim C10.  The call `setStyle(style)` sets `m_style` and the style of the
flowgraph-item view to `style`, whatever they were.  On an `App` as the constructor
leaves it (it applies `Light`), `setStyle(Dark)` followed by `setStyle(Light)` gives back
the `m_style` and the flowgraph-item view style of the fresh `App`. -/
theorem setStyle_sets_both_and_round_trips (style : Style) (s members : App) :
    (setStyle style s).m_style = style ∧
    (setStyle style s).fgItem.style = style ∧
    (setStyle Style.Light (setStyle Style.Dark (App.construct members))).m_style
      = (App.construct members).m_style ∧
    (setStyle Style.Light (setStyle Style.Dark (App.construct members))).fgItem
      = (App.construct members).fgItem := by
  cases style <;> simp [setStyle, App.construct, App.emit, FlowgraphItem.setStyle]

end DigitizerUi
